import Mathlib

/-!
Verification of the streaming statistics engine of `kdp/stats.py`.

The source computes streaming statistics over batched data with four
accumulators (`WelfordAccumulator`, `CategoricalAccumulator`,
`TextAccumulator`, `DateAccumulator`) orchestrated by `DatasetStatistics`,
which finalizes a report and persists/loads it as JSON.

The embedding models TensorFlow float32 tensors by exact rationals
(the source's claims about mean/variance are stated over exact arithmetic),
`tf.string` tensors by Lean `String`s, and `tf.int32` tensors by `Int`.
Stateful `tf.Variable` fields become explicit state records, and
`tf.function` update methods become state-passing functions.
-/

/-! ### `tf.unique`

`tf.unique(x)[0]` returns the distinct elements of `x` in order of first
occurrence.  `tfUniqueAux seen l` drops from `l` every element already in
`seen` or previously emitted. -/

def tfUniqueAux {α : Type} [DecidableEq α] (seen : List α) : List α → List α
  | [] => []
  | x :: xs => if x ∈ seen then tfUniqueAux seen xs else x :: tfUniqueAux (seen ++ [x]) xs

def tfUnique {α : Type} [DecidableEq α] (l : List α) : List α :=
  tfUniqueAux [] l


/-! ### `WelfordAccumulator`

State of the four `tf.Variable`s (`n`, `mean`, `M2`, `var`); the `var`
variable is initialized to `0.0` and never assigned.  `update` is the
batched Welford step of the source: with the pre-batch mean `μ`,
`n' = n + size(values)`, `mean' = μ + Σ (v - μ)/n'`, and
`M2' = M2 + Σ (v - μ)·(v - mean')` (the second factor uses the freshly
assigned mean, as in the source where `self.mean` is re-read after
`assign`). -/

structure WelfordState where
  n : ℚ
  mean : ℚ
  M2 : ℚ
  var : ℚ
deriving DecidableEq, Repr

namespace WelfordAccumulator

def init : WelfordState := { n := 0, mean := 0, M2 := 0, var := 0 }

def update (s : WelfordState) (values : List ℚ) : WelfordState :=
  let n : ℚ := s.n + (values.length : ℚ)
  let mean : ℚ := s.mean + (values.map (fun v => (v - s.mean) / n)).sum
  let M2 : ℚ := s.M2 + (values.map (fun v => (v - s.mean) * (v - mean))).sum
  { n := n, mean := mean, M2 := M2, var := s.var }

def variance (s : WelfordState) : ℚ :=
  if 1 < s.n then s.M2 / (s.n - 1) else s.var

def count (s : WelfordState) : ℚ := s.n

end WelfordAccumulator

/-! ### Reference statistics of a full sequence

`welfordOf vs` is the state whose fields hold the exact count, mean and
sum of squared deviations of `vs` (with the `0/0 = 0` convention matching
the accumulator's initial state). -/

def listMean (vs : List ℚ) : ℚ := vs.sum / (vs.length : ℚ)

def listM2 (vs : List ℚ) : ℚ :=
  (vs.map (fun v => (v - listMean vs) * (v - listMean vs))).sum

def welfordOf (vs : List ℚ) : WelfordState :=
  { n := (vs.length : ℚ), mean := listMean vs, M2 := listM2 vs, var := 0 }

def sumSq (l : List ℚ) : ℚ := (l.map (fun v => v * v)).sum

/-- Feeding a list of batches in order, starting from a fresh accumulator. -/
def runWelfordBatches (batches : List (List ℚ)) : WelfordState :=
  batches.foldl WelfordAccumulator.update WelfordAccumulator.init

/-! ### Batches of tensor data

A batch column is a 1-D tensor whose runtime dtype drives dispatch in
`CategoricalAccumulator.update` / `TextAccumulator.update`.  The dtypes
occurring in the source's domain are `tf.string`, `tf.int32`, and (as
representatives of the unsupported kinds) `tf.int64` and `tf.float32`. -/

inductive TFDType where
  | string : TFDType
  | int32 : TFDType
  | int64 : TFDType
  | float32 : TFDType
deriving DecidableEq, Repr

inductive TBatch where
  | str : List String → TBatch
  | i32 : List Int → TBatch
  | i64 : List Int → TBatch
  | f32 : List ℚ → TBatch
deriving DecidableEq, Repr

def TBatch.dtype : TBatch → TFDType
  | .str _ => .string
  | .i32 _ => .int32
  | .i64 _ => .int64
  | .f32 _ => .float32

/-- The string elements of a batch (empty unless the dtype is `tf.string`). -/
def TBatch.strElems : TBatch → List String
  | .str l => l
  | _ => []

/-- The int32 elements of a batch (empty unless the dtype is `tf.int32`). -/
def TBatch.intElems : TBatch → List Int
  | .i32 l => l
  | _ => []

/-! ### Decimal rendering and parsing

`tf.strings.as_string` renders an int32 tensor in decimal;
`int(...)` in the finalizer parses such a decimal string back.
`natDecimalDigits` is fuel-based exactly like core's `Nat.toDigitsCore`
so that concrete values reduce in the kernel. -/

def decDigitChar (d : Nat) : Char := Char.ofNat (48 + d)

def natDecimalDigits : Nat → Nat → List Char
  | 0, _ => []
  | fuel + 1, n =>
    if n < 10 then [decDigitChar n]
    else natDecimalDigits fuel (n / 10) ++ [decDigitChar (n % 10)]

/-- Models `tf.strings.as_string` on a single int32 scalar. -/
def intToDecimalString (n : Int) : String :=
  match n with
  | .ofNat m => ⟨natDecimalDigits (m + 1) m⟩
  | .negSucc m => ⟨'-' :: natDecimalDigits (m + 2) (m + 1)⟩

def parseNatDigits (ds : List Char) : Nat :=
  ds.foldl (fun a c => a * 10 + (c.toNat - 48)) 0

/-- Models Python `int(...)` on the decimal strings produced by
`tf.strings.as_string` (an optional leading minus sign followed by
decimal digits; `int` raises on other inputs, which never occur here). -/
def intOfDecimalString (s : String) : Int :=
  match s.data with
  | c :: ds => if c = '-' then -(parseNatDigits ds : Int) else (parseNatDigits s.data : Int)
  | [] => 0

/-! ### `CategoricalAccumulator`

Two `tf.Variable`s: `values : tf.string` and `int_values : tf.int32`.
`update` dispatches on the batch dtype and unions via
`tf.unique(tf.concat(...))`; any other dtype raises `ValueError`.
`get_unique_values` concatenates the string values with
`tf.strings.as_string(int_values)` and dedups once more. -/

structure CatState where
  values : List String
  int_values : List Int
deriving DecidableEq, Repr

namespace CategoricalAccumulator

def init : CatState := { values := [], int_values := [] }

def update (s : CatState) (new_values : TBatch) : Except String CatState :=
  if new_values.dtype = .string then
    .ok { s with values := tfUnique (s.values ++ new_values.strElems) }
  else if new_values.dtype = .int32 then
    .ok { s with int_values := tfUnique (s.int_values ++ new_values.intElems) }
  else
    .error "Unsupported data type for categorical features"

def get_unique_values (s : CatState) : List String :=
  tfUnique (s.values ++ s.int_values.map intToDecimalString)

end CategoricalAccumulator

/-! ### `TextAccumulator`

One `tf.Variable` `words : tf.string`.  `update` rejects non-string
batches, collapses whitespace runs (`tf.strings.regex_replace`), splits
on whitespace discarding empty tokens (`tf.strings.split`), lowercases
(`tf.strings.lower`, ASCII case folding like `Char.toLower`), and unions
into the accumulated word set.  The string operations are modelled on
the character lists underlying the strings so that they compute. -/

def isPyWhitespace (c : Char) : Bool :=
  c = ' ' || c = Char.ofNat 9 || c = Char.ofNat 10 || c = Char.ofNat 13 ||
    c = Char.ofNat 11 || c = Char.ofNat 12

def collapseWsAux : List Char → Bool → List Char
  | [], _ => []
  | c :: cs, prevWs =>
    if isPyWhitespace c then
      if prevWs then collapseWsAux cs true else ' ' :: collapseWsAux cs true
    else c :: collapseWsAux cs false

/-- Models `tf.strings.regex_replace(t, r"\s+", " ")`. -/
def collapseWhitespace (s : String) : String := ⟨collapseWsAux s.data false⟩

def splitWsAux : List Char → List Char → List (List Char)
  | [], cur => if cur.isEmpty then [] else [cur.reverse]
  | c :: cs, cur =>
    if isPyWhitespace c then
      if cur.isEmpty then splitWsAux cs [] else cur.reverse :: splitWsAux cs []
    else splitWsAux cs (c :: cur)

/-- Models `tf.strings.split` with no separator: split on whitespace,
discarding empty pieces. -/
def splitWhitespaceTokens (s : String) : List String :=
  (splitWsAux s.data []).map (fun cs => (⟨cs⟩ : String))

/-- Models `tf.strings.lower` (ASCII case folding). -/
def lowerString (s : String) : String := ⟨s.data.map Char.toLower⟩

/-- The tokens contributed by one input text: collapse whitespace runs,
split, lowercase — the per-text composition of the three steps of
`TextAccumulator.update`. -/
def textTokens (t : String) : List String :=
  (splitWhitespaceTokens (collapseWhitespace t)).map lowerString

structure TextState where
  words : List String
deriving DecidableEq, Repr

namespace TextAccumulator

def init : TextState := { words := [] }

def update (s : TextState) (new_texts : TBatch) : Except String TextState :=
  if new_texts.dtype ≠ .string then
    .error "Unsupported data type for text features"
  else
    let collapsed := new_texts.strElems.map collapseWhitespace
    let split_words := (collapsed.map splitWhitespaceTokens).flatten
    let lowered := split_words.map lowerString
    .ok { words := tfUnique (s.words ++ lowered) }

def get_unique_words (s : TextState) : List String := s.words

end TextAccumulator

/-! ### `DateAccumulator` and the date part of `_compute_final_statistics`

The date accumulator owns five `WelfordAccumulator`s.  Its `mean` and
`variance` properties return Python dicts with the five subfield keys in
insertion order; dicts are modelled as association lists in insertion
order, with `dictGetD` for `dict.get(key, default)` and `dictInsert` for
`d[key] = value` (overwrite in place, else append). -/

structure DateState where
  year : WelfordState
  month_sin : WelfordState
  month_cos : WelfordState
  day_of_week_sin : WelfordState
  day_of_week_cos : WelfordState
deriving DecidableEq, Repr

namespace DateAccumulator

def init : DateState :=
  { year := WelfordAccumulator.init, month_sin := WelfordAccumulator.init,
    month_cos := WelfordAccumulator.init, day_of_week_sin := WelfordAccumulator.init,
    day_of_week_cos := WelfordAccumulator.init }

def mean (d : DateState) : List (String × ℚ) :=
  [("year", d.year.mean), ("month_sin", d.month_sin.mean), ("month_cos", d.month_cos.mean),
   ("day_of_week_sin", d.day_of_week_sin.mean), ("day_of_week_cos", d.day_of_week_cos.mean)]

def variance (d : DateState) : List (String × ℚ) :=
  [("year", WelfordAccumulator.variance d.year),
   ("month_sin", WelfordAccumulator.variance d.month_sin),
   ("month_cos", WelfordAccumulator.variance d.month_cos),
   ("day_of_week_sin", WelfordAccumulator.variance d.day_of_week_sin),
   ("day_of_week_cos", WelfordAccumulator.variance d.day_of_week_cos)]

end DateAccumulator

def dictGetD (m : List (String × ℚ)) (k : String) (dflt : ℚ) : ℚ :=
  (m.lookup k).getD dflt

def dictInsert (m : List (String × ℚ)) (k : String) (v : ℚ) : List (String × ℚ) :=
  if m.any (fun kv => kv.1 = k) then m.map (fun kv => if kv.1 = k then (k, v) else kv)
  else m ++ [(k, v)]

/-- The date-feature finalization of `DatasetStatistics._compute_final_statistics`:

    final_stats["date_stats"][feature] = {}
    _means_data = self.date_stats[feature].mean
    for feat_name in _means_data:
        final_stats["date_stats"][feature][f"mean_{feat_name}"] = _means_data.get("feat_name", 0)
    _vars_data = self.date_stats[feature].variance
    for feat_name in _vars_data:
        final_stats["date_stats"][feature][f"mean_{feat_name}"] = _vars_data.get("feat_name", 0)

Both loops write `mean_<feat_name>` keys and both look up the literal
string `"feat_name"` with default `0`. -/
def computeDateFinalStats (d : DateState) : List (String × ℚ) :=
  let means_data := DateAccumulator.mean d
  let after_means := means_data.foldl
    (fun acc kv => dictInsert acc ("mean_" ++ kv.1) (dictGetD means_data "feat_name" 0)) []
  let vars_data := DateAccumulator.variance d
  vars_data.foldl
    (fun acc kv => dictInsert acc ("mean_" ++ kv.1) (dictGetD vars_data "feat_name" 0)) after_means

/-- The date state reached from a fresh accumulator after one date
`(year, month, day_of_week) = (2020, 6, 0)`: the year child receives
`[2020]` and, since `sin(2π·6/12) = 0`, `cos(2π·6/12) = -1`,
`sin(2π·0/7) = 0`, `cos(2π·0/7) = 1` exactly, the four cyclical children
receive `[0]`, `[-1]`, `[0]`, `[1]`. -/
def dateExampleState : DateState :=
  { year := WelfordAccumulator.update WelfordAccumulator.init [2020],
    month_sin := WelfordAccumulator.update WelfordAccumulator.init [0],
    month_cos := WelfordAccumulator.update WelfordAccumulator.init [-1],
    day_of_week_sin := WelfordAccumulator.update WelfordAccumulator.init [0],
    day_of_week_cos := WelfordAccumulator.update WelfordAccumulator.init [1] }

/-! ### Persistence: `_custom_serializer`, `_save_stats`, `_load_stats`

The finalized report is a dict of four category dicts, each mapping a
feature name to a record of scalar fields (plus the `vocab` array
fields).  `json.dump(..., default=_custom_serializer)` serializes native
ints/floats/strings directly and routes `tf.dtypes.DType` objects,
numpy scalars, `bytes` and arrays through `_custom_serializer`; in
particular a `bytes` value `b` is encoded as `str(b)`, i.e. the string
`b'...'` including the `b` prefix and the quotes.  `_load_stats` parses
the JSON back and replaces the value at every `"dtype"` key by
`tf.dtypes.as_dtype` of its string name.  JSON text encoding itself is
out of scope; dump-then-parse is the identity on the JSON tree. -/

inductive DTypeTag where
  | int32 : DTypeTag
  | int64 : DTypeTag
  | float32 : DTypeTag
  | string : DTypeTag
deriving DecidableEq, Repr

def DTypeTag.name : DTypeTag → String
  | .int32 => "int32"
  | .int64 => "int64"
  | .float32 => "float32"
  | .string => "string"

/-- Models `tf.dtypes.as_dtype` on the dtype names occurring in reports
(it raises on unknown names, modelled by `none`). -/
def asDtype (s : String) : Option DTypeTag :=
  if s = "int32" then some .int32
  else if s = "int64" then some .int64
  else if s = "float32" then some .float32
  else if s = "string" then some .string
  else none

/-- A Python scalar sitting in a finalized report: native ints, floats
(including the numpy scalars `_custom_serializer` converts to native
ones, which compare equal to them), strings, `bytes` (carrying the
decoded text of the byte string), and `tf.dtypes.DType` tags. -/
inductive PyScalar where
  | pInt : Int → PyScalar
  | pFloat : ℚ → PyScalar
  | pStr : String → PyScalar
  | pBytes : String → PyScalar
  | pDType : DTypeTag → PyScalar
deriving DecidableEq, Repr

/-- A report field: a scalar or an array of scalars (the `vocab` lists). -/
inductive PyField where
  | scalar : PyScalar → PyField
  | arr : List PyScalar → PyField
deriving DecidableEq, Repr

/-- A feature record, a category dict, and the whole report, as
insertion-ordered dicts. -/
abbrev FeatureRecord := List (String × PyField)

abbrev StatsReport := List (String × List (String × FeatureRecord))

inductive JsonScalar where
  | jInt : Int → JsonScalar
  | jFloat : ℚ → JsonScalar
  | jStr : String → JsonScalar
deriving DecidableEq, Repr

/-- `str(b)` for a bytes object holding the text `s` (no quotes or
escapes occur in the vocab words of interest): `b` + quote + s + quote. -/
def pyStrOfBytes (s : String) : String :=
  "b" ++ String.singleton (Char.ofNat 39) ++ s ++ String.singleton (Char.ofNat 39)

/-- `json.dump`'s treatment of one scalar: native types pass through,
everything else goes through `_custom_serializer` (DType → its string
name, bytes → `str(obj)`). -/
def serializeScalar : PyScalar → JsonScalar
  | .pInt n => .jInt n
  | .pFloat q => .jFloat q
  | .pStr s => .jStr s
  | .pBytes s => .jStr (pyStrOfBytes s)
  | .pDType d => .jStr d.name

inductive JsonField where
  | scalar : JsonScalar → JsonField
  | arr : List JsonScalar → JsonField
deriving DecidableEq, Repr

def serializeField : PyField → JsonField
  | .scalar v => .scalar (serializeScalar v)
  | .arr l => .arr (l.map serializeScalar)

def serializeRecord (r : FeatureRecord) : List (String × JsonField) :=
  r.map (fun kv => (kv.1, serializeField kv.2))

/-- `_save_stats`: `json.dump(self.features_stats, f, default=self._custom_serializer)`. -/
def saveStats (report : StatsReport) : List (String × List (String × List (String × JsonField))) :=
  report.map (fun cat => (cat.1, cat.2.map (fun feat => (feat.1, serializeRecord feat.2))))

/-- `json.load` reconstructs native ints/floats/strings. -/
def jsonScalarToPy : JsonScalar → PyScalar
  | .jInt n => .pInt n
  | .jFloat q => .pFloat q
  | .jStr s => .pStr s

def jsonFieldToPy : JsonField → PyField
  | .scalar v => .scalar (jsonScalarToPy v)
  | .arr l => .arr (l.map jsonScalarToPy)

/-- The dtype restoration of `_load_stats`: if `"dtype" in feature_stats`,
replace its value by `tf.dtypes.as_dtype(feature_stats["dtype"])`. -/
def restoreDtype (r : FeatureRecord) : Option FeatureRecord :=
  match r.lookup "dtype" with
  | none => some r
  | some (.scalar (.pStr s)) =>
    match asDtype s with
    | some d => some (r.map (fun kv => if kv.1 = "dtype" then (kv.1, .scalar (.pDType d)) else kv))
    | none => none
  | some _ => none

def loadRecord (r : List (String × JsonField)) : Option FeatureRecord :=
  restoreDtype (r.map (fun kv => (kv.1, jsonFieldToPy kv.2)))

/-- `_load_stats` on a present stats file: `json.load` followed by the
dtype-restoration loop over every category and feature. -/
def loadStats (j : List (String × List (String × List (String × JsonField)))) :
    Option StatsReport :=
  (j.mapM (fun cat => (cat.2.mapM (fun feat =>
      (loadRecord feat.2).map (fun r => (feat.1, r)))).map (fun feats => (cat.1, feats))))

/-- `_save_stats` followed by `_load_stats` (the JSON file round-trip in
between is the identity on the JSON tree). -/
def saveThenLoad (report : StatsReport) : Option StatsReport :=
  loadStats (saveStats report)

/-! ### Batch-feeding drivers and the integer-categorical finalizer -/

/-- One int32 batch fed to a `CategoricalAccumulator` (such an update
always succeeds, so the error branch is never taken). -/
def intBatchStep (s : CatState) (l : List Int) : CatState :=
  match CategoricalAccumulator.update s (.i32 l) with
  | .ok s2 => s2
  | .error _ => s

/-- Feed int32 batches to a fresh `CategoricalAccumulator` in order. -/
def runIntBatches (batches : List (List Int)) : CatState :=
  batches.foldl intBatchStep CategoricalAccumulator.init

/-- One string batch fed to a `TextAccumulator` (always succeeds). -/
def textBatchStep (s : TextState) (l : List String) : TextState :=
  match TextAccumulator.update s (.str l) with
  | .ok s2 => s2
  | .error _ => s

/-- Feed string batches to a fresh `TextAccumulator` in order. -/
def runTextBatches (batches : List (List String)) : TextState :=
  batches.foldl textBatchStep TextAccumulator.init

/-- The integer-dtype branch of the categorical finalization in
`_compute_final_statistics`:
`unique_values = [int(b) for b in acc.get_unique_values()]` followed by
`unique_values.sort()` (ascending). -/
def finalizeIntCategorical (s : CatState) : List Int :=
  List.mergeSort ((CategoricalAccumulator.get_unique_values s).map intOfDecimalString)
    (fun a b => decide (a ≤ b))

/-! ### A concrete finalized report and its persisted round-trip -/

/-- A finalized report with one feature of each category.  The text
vocabulary entries are `bytes` (as produced by
`TextAccumulator.get_unique_words`, which returns the raw byte strings
of the `tf.string` variable). -/
def reportExample : StatsReport :=
  [("numeric_stats",
      [("age", [("mean", .scalar (.pFloat 3)), ("count", .scalar (.pFloat 5)),
                ("var", .scalar (.pFloat 2)), ("dtype", .scalar (.pDType .float32))])]),
   ("categorical_stats",
      [("city", [("size", .scalar (.pInt 4)),
                 ("vocab", .arr [.pInt 1, .pInt 2, .pInt 3, .pInt 5]),
                 ("dtype", .scalar (.pDType .int32))])]),
   ("text_stats",
      [("notes", [("size", .scalar (.pInt 1)),
                  ("vocab", .arr [.pBytes "the"]),
                  ("dtype", .scalar (.pDType .string))])]),
   ("date_stats",
      [("when", [("mean_year", .scalar (.pFloat 0)),
                 ("mean_month_sin", .scalar (.pFloat 0)),
                 ("mean_month_cos", .scalar (.pFloat 0)),
                 ("mean_day_of_week_sin", .scalar (.pFloat 0)),
                 ("mean_day_of_week_cos", .scalar (.pFloat 0))])])]

/-- What `_load_stats` actually returns for the persisted
`reportExample`: identical except that the text vocabulary entry came
back as the plain string `b'the'` — the `str(...)` rendering of the
bytes object — instead of the bytes value that was persisted. -/
def loadedReportExample : StatsReport :=
  [("numeric_stats",
      [("age", [("mean", .scalar (.pFloat 3)), ("count", .scalar (.pFloat 5)),
                ("var", .scalar (.pFloat 2)), ("dtype", .scalar (.pDType .float32))])]),
   ("categorical_stats",
      [("city", [("size", .scalar (.pInt 4)),
                 ("vocab", .arr [.pInt 1, .pInt 2, .pInt 3, .pInt 5]),
                 ("dtype", .scalar (.pDType .int32))])]),
   ("text_stats",
      [("notes", [("size", .scalar (.pInt 1)),
                  ("vocab", .arr [.pStr (pyStrOfBytes "the")]),
                  ("dtype", .scalar (.pDType .string))])]),
   ("date_stats",
      [("when", [("mean_year", .scalar (.pFloat 0)),
                 ("mean_month_sin", .scalar (.pFloat 0)),
                 ("mean_month_cos", .scalar (.pFloat 0)),
                 ("mean_day_of_week_sin", .scalar (.pFloat 0)),
                 ("mean_day_of_week_cos", .scalar (.pFloat 0))])])]

theorem mem_tfUniqueAux {α : Type} [DecidableEq α] (x : α) :
    ∀ (l seen : List α), x ∈ tfUniqueAux seen l ↔ x ∈ l ∧ x ∉ seen
  | [], seen => by simp [tfUniqueAux]
  | y :: ys, seen => by
    by_cases hy : y ∈ seen
    · rw [tfUniqueAux, if_pos hy, mem_tfUniqueAux x ys seen]
      constructor
      · rintro ⟨h1, h2⟩
        exact ⟨List.mem_cons_of_mem y h1, h2⟩
      · rintro ⟨h1, h2⟩
        rcases List.mem_cons.mp h1 with rfl | h1
        · exact absurd hy h2
        · exact ⟨h1, h2⟩
    · rw [tfUniqueAux, if_neg hy, List.mem_cons, mem_tfUniqueAux x ys (seen ++ [y])]
      constructor
      · rintro (rfl | ⟨h1, h2⟩)
        · exact ⟨List.mem_cons_self x ys, hy⟩
        · refine ⟨List.mem_cons_of_mem y h1, fun hc => h2 ?_⟩
          exact List.mem_append.mpr (Or.inl hc)
      · rintro ⟨h1, h2⟩
        rcases eq_or_ne x y with rfl | hxy
        · exact Or.inl rfl
        · rcases List.mem_cons.mp h1 with rfl | h1
          · exact absurd rfl hxy
          · refine Or.inr ⟨h1, fun hc => ?_⟩
            rcases List.mem_append.mp hc with hc | hc
            · exact h2 hc
            · exact hxy (List.mem_singleton.mp hc)

theorem mem_tfUnique {α : Type} [DecidableEq α] (x : α) (l : List α) :
    x ∈ tfUnique l ↔ x ∈ l := by
  simp [tfUnique, mem_tfUniqueAux]

theorem nodup_tfUniqueAux {α : Type} [DecidableEq α] :
    ∀ (l seen : List α), (tfUniqueAux seen l).Nodup ∧ ∀ x ∈ tfUniqueAux seen l, x ∉ seen
  | [], seen => by simp [tfUniqueAux]
  | y :: ys, seen => by
    by_cases hy : y ∈ seen
    · simpa [tfUniqueAux, if_pos hy] using nodup_tfUniqueAux ys seen
    · have ih := nodup_tfUniqueAux ys (seen ++ [y])
      simp only [tfUniqueAux, if_neg hy, List.nodup_cons]
      refine ⟨⟨fun hc => ?_, ih.1⟩, ?_⟩
      · exact (ih.2 y hc) (by simp)
      · intro x hx
        rcases List.mem_cons.mp hx with rfl | hx
        · exact hy
        · intro hc
          exact (ih.2 x hx) (List.mem_append.mpr (Or.inl hc))

theorem nodup_tfUnique {α : Type} [DecidableEq α] (l : List α) : (tfUnique l).Nodup :=
  (nodup_tfUniqueAux l []).1

theorem tfUniqueAux_map {α β : Type} [DecidableEq α] [DecidableEq β] (f : α → β)
    (hf : Function.Injective f) :
    ∀ (l seen : List α), tfUniqueAux (seen.map f) (l.map f) = (tfUniqueAux seen l).map f
  | [], seen => by simp [tfUniqueAux]
  | y :: ys, seen => by
    by_cases hy : y ∈ seen
    · have : f y ∈ seen.map f := List.mem_map_of_mem f hy
      simp only [List.map_cons, tfUniqueAux, if_pos this, if_pos hy]
      exact tfUniqueAux_map f hf ys seen
    · have : f y ∉ seen.map f := fun hc => by
        rcases List.mem_map.mp hc with ⟨z, hz, hzy⟩
        exact hy (hf hzy ▸ hz)
      simp only [List.map_cons, tfUniqueAux, if_neg this, if_neg hy, List.map_cons]
      have := tfUniqueAux_map f hf ys (seen ++ [y])
      simp only [List.map_append, List.map_cons, List.map_nil] at this
      rw [this]

theorem tfUnique_map {α β : Type} [DecidableEq α] [DecidableEq β] (f : α → β)
    (hf : Function.Injective f) (l : List α) :
    tfUnique (l.map f) = (tfUnique l).map f := by
  simpa [tfUnique] using tfUniqueAux_map f hf l []

theorem welfordOf_nil : welfordOf [] = WelfordAccumulator.init := by
  simp [welfordOf, WelfordAccumulator.init, listMean, listM2]

theorem sum_map_sub_div (l : List ℚ) (a N : ℚ) :
    (l.map (fun v => (v - a) / N)).sum = (l.sum - (l.length : ℚ) * a) / N := by
  induction l with
  | nil => simp
  | cons x xs ih =>
    rw [List.map_cons, List.sum_cons, ih, div_add_div_same]
    rw [List.sum_cons, List.length_cons]
    push_cast
    ring_nf

theorem sum_map_sub_mul (l : List ℚ) (a b : ℚ) :
    (l.map (fun v => (v - a) * (v - b))).sum
      = sumSq l - (a + b) * l.sum + (l.length : ℚ) * (a * b) := by
  induction l with
  | nil => simp [sumSq]
  | cons x xs ih =>
    rw [List.map_cons, List.sum_cons, ih]
    simp only [sumSq, List.map_cons, List.sum_cons, List.length_cons]
    push_cast
    ring

theorem listM2_expand (vs : List ℚ) :
    listM2 vs = sumSq vs - 2 * listMean vs * vs.sum
      + (vs.length : ℚ) * (listMean vs * listMean vs) := by
  rw [listM2, sum_map_sub_mul]
  ring

theorem mean_update_welfordOf (as bs : List ℚ) :
    (WelfordAccumulator.update (welfordOf as) bs).mean = listMean (as ++ bs) := by
  show listMean as
      + (bs.map (fun v => (v - listMean as) / ((as.length : ℚ) + (bs.length : ℚ)))).sum
      = listMean (as ++ bs)
  rw [sum_map_sub_div]
  simp only [listMean, List.sum_append, List.length_append, Nat.cast_add]
  rcases eq_or_ne ((as.length : ℚ)) 0 with hn | hn
  · obtain rfl : as = [] := List.length_eq_zero.mp (Nat.cast_eq_zero.mp hn)
    simp
  · rcases eq_or_ne ((bs.length : ℚ)) 0 with hm | hm
    · obtain rfl : bs = [] := List.length_eq_zero.mp (Nat.cast_eq_zero.mp hm)
      simp
    · have hn0 : 0 < (as.length : ℚ) := lt_of_le_of_ne (Nat.cast_nonneg _) (Ne.symm hn)
      have hN : ((as.length : ℚ) + (bs.length : ℚ)) ≠ 0 :=
        ne_of_gt (add_pos_of_pos_of_nonneg hn0 (Nat.cast_nonneg _))
      field_simp
      ring

theorem sumSq_append (as bs : List ℚ) : sumSq (as ++ bs) = sumSq as + sumSq bs := by
  simp [sumSq]

theorem M2_update_welfordOf (as bs : List ℚ) :
    (WelfordAccumulator.update (welfordOf as) bs).M2 = listM2 (as ++ bs) := by
  have hmean := mean_update_welfordOf as bs
  show listM2 as + (bs.map (fun v =>
      (v - listMean as) * (v - (WelfordAccumulator.update (welfordOf as) bs).mean))).sum
      = listM2 (as ++ bs)
  rw [hmean, sum_map_sub_mul, listM2_expand, listM2_expand, sumSq_append]
  simp only [listMean, List.sum_append, List.length_append, Nat.cast_add]
  rcases eq_or_ne ((as.length : ℚ)) 0 with hn | hn
  · obtain rfl : as = [] := List.length_eq_zero.mp (Nat.cast_eq_zero.mp hn)
    rcases eq_or_ne ((bs.length : ℚ)) 0 with hm | hm
    · obtain rfl : bs = [] := List.length_eq_zero.mp (Nat.cast_eq_zero.mp hm)
      simp
    · simp only [List.sum_nil, List.length_nil, Nat.cast_zero, zero_div, zero_add,
        sumSq, List.map_nil]
      field_simp
      ring
  · rcases eq_or_ne ((bs.length : ℚ)) 0 with hm | hm
    · obtain rfl : bs = [] := List.length_eq_zero.mp (Nat.cast_eq_zero.mp hm)
      simp only [List.sum_nil, List.length_nil, Nat.cast_zero, add_zero, mul_zero, zero_mul,
        sub_zero, sumSq, List.map_nil]
    · have hn0 : 0 < (as.length : ℚ) := lt_of_le_of_ne (Nat.cast_nonneg _) (Ne.symm hn)
      have hN : ((as.length : ℚ) + (bs.length : ℚ)) ≠ 0 :=
        ne_of_gt (add_pos_of_pos_of_nonneg hn0 (Nat.cast_nonneg _))
      field_simp
      ring

theorem update_welfordOf (as bs : List ℚ) :
    WelfordAccumulator.update (welfordOf as) bs = welfordOf (as ++ bs) := by
  have hmean := mean_update_welfordOf as bs
  have hM2 := M2_update_welfordOf as bs
  have hn : (WelfordAccumulator.update (welfordOf as) bs).n = ((as ++ bs).length : ℚ) := by
    show ((as.length : ℚ)) + (bs.length : ℚ) = ((as ++ bs).length : ℚ)
    rw [List.length_append]
    push_cast
    ring
  have hvar : (WelfordAccumulator.update (welfordOf as) bs).var = 0 := rfl
  cases h : WelfordAccumulator.update (welfordOf as) bs
  rw [h] at hmean hM2 hn hvar
  simp only [welfordOf]
  simp_all

theorem foldl_update_welfordOf :
    ∀ (batches : List (List ℚ)) (as : List ℚ),
      batches.foldl WelfordAccumulator.update (welfordOf as) = welfordOf (as ++ batches.flatten)
  | [], as => by simp
  | b :: bs, as => by
    rw [List.foldl_cons, update_welfordOf, foldl_update_welfordOf bs (as ++ b)]
    simp

theorem runWelfordBatches_eq (batches : List (List ℚ)) :
    runWelfordBatches batches = welfordOf batches.flatten := by
  rw [runWelfordBatches, ← welfordOf_nil, foldl_update_welfordOf]
  simp

/-! ### Decimal round-trip: `int(tf.strings.as_string(n)) = n` -/

theorem parseNatDigits_append (xs : List Char) (c : Char) :
    parseNatDigits (xs ++ [c]) = parseNatDigits xs * 10 + (c.toNat - 48) := by
  simp [parseNatDigits, List.foldl_append]

theorem toNat_decDigitChar (d : Nat) (hd : d < 10) : (decDigitChar d).toNat = 48 + d := by
  interval_cases d <;> decide

theorem decDigitChar_ne_minus (d : Nat) (hd : d < 10) : decDigitChar d ≠ '-' := by
  interval_cases d <;> decide

theorem parseNatDigits_natDecimalDigits :
    ∀ (fuel n : Nat), n < fuel → parseNatDigits (natDecimalDigits fuel n) = n
  | 0, n, h => absurd h (Nat.not_lt_zero n)
  | fuel + 1, n, h => by
    rw [natDecimalDigits]
    by_cases h10 : n < 10
    · rw [if_pos h10]
      simp [parseNatDigits, toNat_decDigitChar n h10]
    · rw [if_neg h10]
      have hdiv : n / 10 < fuel := by
        have := Nat.div_lt_self (by omega : 0 < n) (by omega : 1 < 10)
        omega
      rw [parseNatDigits_append, parseNatDigits_natDecimalDigits fuel (n / 10) hdiv,
        toNat_decDigitChar (n % 10) (Nat.mod_lt n (by omega))]
      omega

theorem natDecimalDigits_head :
    ∀ (fuel n : Nat), n < fuel →
      ∃ d rest, d < 10 ∧ natDecimalDigits fuel n = decDigitChar d :: rest
  | 0, n, h => absurd h (Nat.not_lt_zero n)
  | fuel + 1, n, h => by
    rw [natDecimalDigits]
    by_cases h10 : n < 10
    · exact ⟨n, [], h10, by rw [if_pos h10]⟩
    · have hdiv : n / 10 < fuel := by
        have := Nat.div_lt_self (by omega : 0 < n) (by omega : 1 < 10)
        omega
      obtain ⟨d, rest, hd, heq⟩ := natDecimalDigits_head fuel (n / 10) hdiv
      exact ⟨d, rest ++ [decDigitChar (n % 10)], hd, by rw [if_neg h10, heq]; rfl⟩

theorem intOfDecimalString_mk_cons (c : Char) (ds : List Char) :
    intOfDecimalString ⟨c :: ds⟩
      = if c = '-' then -(parseNatDigits ds : Int) else (parseNatDigits (c :: ds) : Int) := rfl

theorem intOfDecimalString_intToDecimalString (n : Int) :
    intOfDecimalString (intToDecimalString n) = n := by
  cases n with
  | ofNat m =>
    obtain ⟨d, rest, hd, heq⟩ := natDecimalDigits_head (m + 1) m (Nat.lt_succ_self m)
    have hparse := parseNatDigits_natDecimalDigits (m + 1) m (Nat.lt_succ_self m)
    show intOfDecimalString ⟨natDecimalDigits (m + 1) m⟩ = Int.ofNat m
    rw [heq] at hparse ⊢
    rw [intOfDecimalString_mk_cons, if_neg (decDigitChar_ne_minus d hd), hparse]
    rfl
  | negSucc m =>
    have hparse := parseNatDigits_natDecimalDigits (m + 2) (m + 1) (by omega)
    show intOfDecimalString ⟨'-' :: natDecimalDigits (m + 2) (m + 1)⟩ = Int.negSucc m
    rw [intOfDecimalString_mk_cons, if_pos rfl, hparse]
    rfl

theorem intToDecimalString_injective : Function.Injective intToDecimalString :=
  Function.LeftInverse.injective intOfDecimalString_intToDecimalString

/-! ### State lemmas for the categorical and text accumulators -/

theorem intBatchStep_eq (s : CatState) (l : List Int) :
    intBatchStep s l = { s with int_values := tfUnique (s.int_values ++ l) } := rfl

theorem textBatchStep_eq (s : TextState) (l : List String) :
    textBatchStep s l = { words := tfUnique (s.words ++
      (((l.map collapseWhitespace).map splitWhitespaceTokens).flatten.map lowerString)) } := rfl

theorem mem_batchTokens (l : List String) (w : String) :
    w ∈ ((l.map collapseWhitespace).map splitWhitespaceTokens).flatten.map lowerString
      ↔ ∃ t ∈ l, w ∈ textTokens t := by
  simp only [List.map_map, List.mem_map, List.mem_flatten, textTokens, Function.comp]
  aesop

theorem foldl_intBatchStep (batches : List (List Int)) :
    ∀ (s : CatState),
      ((batches.foldl intBatchStep s).values = s.values ∧
        ∀ x, x ∈ (batches.foldl intBatchStep s).int_values ↔
          x ∈ s.int_values ∨ x ∈ batches.flatten) := by
  induction batches with
  | nil => intro s; simp
  | cons b bs ih =>
    intro s
    rw [List.foldl_cons, intBatchStep_eq]
    refine ⟨(ih _).1, fun x => ?_⟩
    rw [(ih _).2 x]
    show x ∈ tfUnique (s.int_values ++ b) ∨ x ∈ bs.flatten ↔ _
    rw [mem_tfUnique, List.mem_append, List.flatten_cons, List.mem_append]
    tauto

theorem foldl_textBatchStep (batches : List (List String)) :
    ∀ (s : TextState) (w : String),
      w ∈ (batches.foldl textBatchStep s).words ↔
        w ∈ s.words ∨ ∃ t ∈ batches.flatten, w ∈ textTokens t := by
  induction batches with
  | nil => intro s w; simp
  | cons b bs ih =>
    intro s w
    rw [List.foldl_cons, textBatchStep_eq, ih, mem_tfUnique, List.mem_append,
      mem_batchTokens, List.flatten_cons]
    simp only [List.mem_append]
    constructor
    · rintro ((h | ⟨t, ht, hw⟩) | ⟨t, ht, hw⟩)
      · exact Or.inl h
      · exact Or.inr ⟨t, Or.inl ht, hw⟩
      · exact Or.inr ⟨t, Or.inr ht, hw⟩
    · rintro (h | ⟨t, ht | ht, hw⟩)
      · exact Or.inl (Or.inl h)
      · exact Or.inl (Or.inr ⟨t, ht, hw⟩)
      · exact Or.inr ⟨t, ht, hw⟩

theorem runIntBatches_values (batches : List (List Int)) :
    (runIntBatches batches).values = [] :=
  (foldl_intBatchStep batches CategoricalAccumulator.init).1

theorem mem_runIntBatches (batches : List (List Int)) (x : Int) :
    x ∈ (runIntBatches batches).int_values ↔ x ∈ batches.flatten := by
  rw [runIntBatches, (foldl_intBatchStep batches CategoricalAccumulator.init).2 x]
  simp [CategoricalAccumulator.init]

theorem mem_runTextBatches (batches : List (List String)) (w : String) :
    w ∈ (runTextBatches batches).words ↔ ∃ t ∈ batches.flatten, w ∈ textTokens t := by
  rw [runTextBatches, foldl_textBatchStep batches TextAccumulator.init w]
  simp [TextAccumulator.init]

theorem nodup_runIntBatches (batches : List (List Int)) :
    (runIntBatches batches).int_values.Nodup := by
  rw [runIntBatches]
  induction batches using List.reverseRecOn with
  | nil => simp [CategoricalAccumulator.init]
  | append_singleton bs b ih =>
    rw [List.foldl_append, List.foldl_cons, List.foldl_nil, intBatchStep_eq]
    exact nodup_tfUnique _

theorem sorted_mergeSortIntLE (l : List Int) :
    (List.mergeSort l (fun a b => decide (a ≤ b))).Sorted (· ≤ ·) := by
  have h : (List.mergeSort l (fun a b => decide (a ≤ b))).Pairwise
      (fun a b => decide (a ≤ b) = true) :=
    List.sorted_mergeSort
      (fun a b c h1 h2 => by
        simp only [decide_eq_true_eq] at h1 h2 ⊢
        omega)
      (fun a b => by
        simp only [Bool.or_eq_true, decide_eq_true_eq]
        omega) l
  exact h.imp (fun hab => by simpa using hab)

theorem finalizeIntCategorical_eq (batches : List (List Int)) :
    finalizeIntCategorical (runIntBatches batches)
      = List.mergeSort (tfUnique (runIntBatches batches).int_values)
          (fun a b => decide (a ≤ b)) := by
  rw [finalizeIntCategorical, CategoricalAccumulator.get_unique_values, runIntBatches_values,
    List.nil_append, tfUnique_map intToDecimalString intToDecimalString_injective,
    List.map_map]
  have h : ∀ x ∈ tfUnique (runIntBatches batches).int_values,
      (intOfDecimalString ∘ intToDecimalString) x = id x := fun x _ =>
    intOfDecimalString_intToDecimalString x
  rw [List.map_congr_left h, List.map_id]

/-! ### The claims -/

/-- Claim C1: for every finite sequence of numeric values, feeding it to a
`WelfordAccumulator` as one batch and feeding it split into any partition of
smaller batches (in order) yields the same final mean and the same final
variance (exact equality over exact arithmetic). -/
theorem welford_partition_invariant :
    ∀ batches : List (List ℚ),
      (runWelfordBatches batches).mean
          = (WelfordAccumulator.update WelfordAccumulator.init batches.flatten).mean ∧
        WelfordAccumulator.variance (runWelfordBatches batches)
          = WelfordAccumulator.variance
              (WelfordAccumulator.update WelfordAccumulator.init batches.flatten) := by
  intro batches
  have h2 : WelfordAccumulator.update WelfordAccumulator.init batches.flatten
      = welfordOf batches.flatten := by
    rw [← welfordOf_nil, update_welfordOf]
    simp
  rw [runWelfordBatches_eq batches, h2]
  exact ⟨rfl, rfl⟩

/-- Claim C2: a fresh `WelfordAccumulator` updated with the batch
`[1.0, 2.0, 3.0]` and then with the batch `[4.0, 5.0]` reports mean `3.0`,
count `5`, and variance `2.5` (sample variance, n-1 denominator). -/
theorem welford_batch_scenario :
    WelfordAccumulator.count (WelfordAccumulator.update (WelfordAccumulator.update
        WelfordAccumulator.init [1, 2, 3]) [4, 5]) = 5 ∧
    (WelfordAccumulator.update (WelfordAccumulator.update
        WelfordAccumulator.init [1, 2, 3]) [4, 5]).mean = 3 ∧
    WelfordAccumulator.variance (WelfordAccumulator.update (WelfordAccumulator.update
        WelfordAccumulator.init [1, 2, 3]) [4, 5]) = 5 / 2 := by
  refine ⟨?_, ?_, ?_⟩ <;>
    norm_num [WelfordAccumulator.update, WelfordAccumulator.init, WelfordAccumulator.count,
      WelfordAccumulator.variance]

/-- Claim C3 (evaluation of the defect): after accumulating the date
`(year, month, day_of_week) = (2020, 6, 0)`, the year subfield's accumulated
mean is `2020 ≠ 0`, yet the finalized date record maps `mean_year` to `0`
and contains no `var_year` entry at all — contradicting the claim that each
subfield gets a `mean_<subfield>` entry equal to its accumulated mean and a
distinct `var_<subfield>` entry equal to its accumulated variance. -/
theorem date_report_drops_accumulated_stats :
    (computeDateFinalStats dateExampleState).lookup "mean_year" = some 0 ∧
    (computeDateFinalStats dateExampleState).lookup "var_year" = none ∧
    dateExampleState.year.mean = 2020 ∧ (2020 : ℚ) ≠ 0 := by
  refine ⟨rfl, rfl, ?_, by norm_num⟩
  norm_num [dateExampleState, WelfordAccumulator.update, WelfordAccumulator.init]

/-- Claim C4 (evaluation of the defect): persisting `reportExample` and
loading it back yields `loadedReportExample`, in which dtype tags are
correctly reconstructed and integers and floats keep their values, but the
text vocabulary entry that was persisted as the bytes value `b"the"` comes
back as the plain string `b'the'` — the `str(...)` rendering of the bytes
object — so the loaded report is not equal to the persisted one. -/
theorem persisted_report_roundtrip_fails :
    saveThenLoad reportExample = some loadedReportExample ∧
    loadedReportExample ≠ reportExample := by
  constructor
  · simp only [saveThenLoad, saveStats, loadStats, reportExample, loadedReportExample,
      serializeRecord, serializeField, serializeScalar, List.map_cons, List.map_nil,
      List.mapM_cons, List.mapM_nil, loadRecord, jsonFieldToPy, jsonScalarToPy, restoreDtype,
      List.lookup, asDtype, DTypeTag.name, Option.map, Option.bind, pyStrOfBytes]
    rfl
  · intro h
    simp only [loadedReportExample, reportExample, List.cons.injEq, Prod.mk.injEq,
      PyField.arr.injEq, PyField.scalar.injEq, pyStrOfBytes, reduceCtorEq, and_false,
      false_and, and_true, true_and] at h

/-- Claim C5: `CategoricalAccumulator.update` raises an unsupported-type
error iff the batch's element kind is neither int32 nor string, and
`TextAccumulator.update` raises iff the kind is not string; in the
supported cases the batch is merged into the accumulated state. -/
theorem update_dtype_dispatch :
    ∀ (cs : CatState) (ts : TextState) (b : TBatch),
      (match CategoricalAccumulator.update cs b with
        | .error _ => b.dtype ≠ TFDType.int32 ∧ b.dtype ≠ TFDType.string
        | .ok cs2 => (b.dtype = TFDType.int32 ∨ b.dtype = TFDType.string) ∧
            (∀ x, x ∈ cs2.values ↔ x ∈ cs.values ∨ x ∈ b.strElems) ∧
            (∀ n, n ∈ cs2.int_values ↔ n ∈ cs.int_values ∨ n ∈ b.intElems)) ∧
      (match TextAccumulator.update ts b with
        | .error _ => b.dtype ≠ TFDType.string
        | .ok ts2 => b.dtype = TFDType.string ∧
            (∀ w, w ∈ ts2.words ↔ w ∈ ts.words ∨ ∃ t ∈ b.strElems, w ∈ textTokens t)) := by
  intro cs ts b
  cases b with
  | str l =>
    have hcat : ∀ x, x ∈ tfUnique (cs.values ++ l) ↔ x ∈ cs.values ∨ x ∈ l := fun x => by
      rw [mem_tfUnique, List.mem_append]
    have htext : ∀ w, w ∈ tfUnique (ts.words ++
        ((l.map collapseWhitespace).map splitWhitespaceTokens).flatten.map lowerString) ↔
        w ∈ ts.words ∨ ∃ t ∈ l, w ∈ textTokens t := fun w => by
      rw [mem_tfUnique, List.mem_append, mem_batchTokens]
    exact ⟨⟨Or.inr rfl, hcat, fun n => by simp [TBatch.intElems]⟩, rfl, htext⟩
  | i32 l =>
    have hcat : ∀ n, n ∈ tfUnique (cs.int_values ++ l) ↔ n ∈ cs.int_values ∨ n ∈ l :=
      fun n => by rw [mem_tfUnique, List.mem_append]
    exact ⟨⟨Or.inl rfl, fun x => by simp [TBatch.strElems], hcat⟩,
      by simp [TextAccumulator.update, TBatch.dtype]⟩
  | i64 l =>
    exact ⟨⟨by simp [TBatch.dtype], by simp [TBatch.dtype]⟩,
      by simp [TextAccumulator.update, TBatch.dtype]⟩
  | f32 l =>
    exact ⟨⟨by simp [TBatch.dtype], by simp [TBatch.dtype]⟩,
      by simp [TextAccumulator.update, TBatch.dtype]⟩

/-- Claim C6: for an int32 categorical feature, the finalized vocabulary is
the set of distinct observed integers sorted ascending — whatever the batch
partitioning and element order — and `[3, 1, 2]` then `[2, 5]` finalizes to
`[1, 2, 3, 5]` of size 4. -/
theorem intCategorical_vocab_sorted :
    (∀ batches : List (List Int),
        (finalizeIntCategorical (runIntBatches batches)).Sorted (· ≤ ·) ∧
        (finalizeIntCategorical (runIntBatches batches)).Nodup ∧
        (∀ x : Int, x ∈ finalizeIntCategorical (runIntBatches batches) ↔
          x ∈ batches.flatten)) ∧
    finalizeIntCategorical (runIntBatches [[3, 1, 2], [2, 5]]) = [1, 2, 3, 5] ∧
    (finalizeIntCategorical (runIntBatches [[3, 1, 2], [2, 5]])).length = 4 := by
  have hconc : finalizeIntCategorical (runIntBatches [[3, 1, 2], [2, 5]]) = [1, 2, 3, 5] := by
    have h1 : (CategoricalAccumulator.get_unique_values
        (runIntBatches [[3, 1, 2], [2, 5]])).map intOfDecimalString = [3, 1, 2, 5] := rfl
    rw [finalizeIntCategorical, h1]
    have hperm : (List.mergeSort [3, 1, 2, 5] (fun a b : Int => decide (a ≤ b))).Perm
        [1, 2, 3, 5] := (List.mergeSort_perm _ _).trans (by decide)
    exact List.eq_of_perm_of_sorted hperm (sorted_mergeSortIntLE _) (by decide)
  refine ⟨fun batches => ?_, hconc, by simp [hconc]⟩
  rw [finalizeIntCategorical_eq]
  have hperm := List.mergeSort_perm (tfUnique (runIntBatches batches).int_values)
    (fun a b => decide (a ≤ b))
  refine ⟨sorted_mergeSortIntLE _, hperm.nodup_iff.mpr (nodup_tfUnique _), fun x => ?_⟩
  rw [List.mem_mergeSort, mem_tfUnique, mem_runIntBatches]

/-- Claim C7: the accumulated word set of a `TextAccumulator` equals the
set obtained by splitting each input text on runs of whitespace and
lowercasing each token; empty and all-whitespace texts contribute nothing,
and `["The Quick", "fox jumps"]` accumulates exactly
`{"the", "quick", "fox", "jumps"}`. -/
theorem text_tokens_accumulated :
    (∀ (batches : List (List String)) (w : String),
        w ∈ (runTextBatches batches).words ↔ ∃ t ∈ batches.flatten, w ∈ textTokens t) ∧
    textTokens "" = [] ∧
    textTokens "  \t " = [] ∧
    (runTextBatches [["The Quick", "fox jumps"]]).words = ["the", "quick", "fox", "jumps"] :=
  ⟨mem_runTextBatches, rfl, rfl, rfl⟩

/-- Claim C8: a `WelfordAccumulator` finalized after zero batches reports
count `0` and variance `0.0`, and updating with an empty batch is a no-op
on the whole state (count, mean and sum of squared deviations included). -/
theorem welford_empty_batches :
    WelfordAccumulator.count WelfordAccumulator.init = 0 ∧
    WelfordAccumulator.variance WelfordAccumulator.init = 0 ∧
    ∀ s : WelfordState, WelfordAccumulator.update s [] = s := by
  refine ⟨rfl, ?_, fun s => ?_⟩
  · norm_num [WelfordAccumulator.variance, WelfordAccumulator.init]
  · cases s with
    | mk n mean M2 var => simp [WelfordAccumulator.update]

/-- Claim C9: accumulator state grows monotonically under `update`: a
`WelfordAccumulator`'s count never decreases, and a successful
`CategoricalAccumulator` (or `TextAccumulator`) update keeps every
previously accumulated value. -/
theorem accumulator_state_monotone :
    ∀ (s : WelfordState) (vs : List ℚ) (cs : CatState) (ts : TextState) (b : TBatch),
      WelfordAccumulator.count s ≤ WelfordAccumulator.count (WelfordAccumulator.update s vs) ∧
      (match CategoricalAccumulator.update cs b with
        | .ok cs2 => cs.values ⊆ cs2.values ∧ cs.int_values ⊆ cs2.int_values
        | .error _ => True) ∧
      (match TextAccumulator.update ts b with
        | .ok ts2 => ts.words ⊆ ts2.words
        | .error _ => True) := by
  intro s vs cs ts b
  refine ⟨le_add_of_nonneg_right (Nat.cast_nonneg vs.length), ?_, ?_⟩
  · cases b with
    | str l =>
      refine ⟨fun x hx => ?_, fun n hn => hn⟩
      show x ∈ tfUnique (cs.values ++ l)
      exact (mem_tfUnique x _).mpr (List.mem_append.mpr (Or.inl hx))
    | i32 l =>
      refine ⟨fun x hx => hx, fun n hn => ?_⟩
      show n ∈ tfUnique (cs.int_values ++ l)
      exact (mem_tfUnique n _).mpr (List.mem_append.mpr (Or.inl hn))
    | i64 l => trivial
    | f32 l => trivial
  · cases b with
    | str l =>
      intro w hw
      show w ∈ tfUnique (ts.words ++ _)
      exact (mem_tfUnique w _).mpr (List.mem_append.mpr (Or.inl hw))
    | i32 l => trivial
    | i64 l => trivial
    | f32 l => trivial

/-- Claim C10: for every date feature, whatever was accumulated, every value
in the finalized date record is `0`: both finalization loops look up the
literal key `"feat_name"` (never present, so the default `0` is taken) and
both write the same five `mean_<subfield>` keys, so no `var_<subfield>` key
exists and the accumulated date data never influences the report. -/
theorem date_finalization_constant_zero :
    ∀ d : DateState, computeDateFinalStats d
      = [("mean_year", 0), ("mean_month_sin", 0), ("mean_month_cos", 0),
         ("mean_day_of_week_sin", 0), ("mean_day_of_week_cos", 0)] := by
  intro d
  simp [computeDateFinalStats, DateAccumulator.mean, DateAccumulator.variance, dictGetD,
    dictInsert, List.lookup]
